import Mathlib

/-!
Verification development for the simple-sops repository.

Shallow embedding of the rule store (`internal/config/sops_config.go`),
the key-material parsing helpers (`internal/keymgmt`), the multi-key
bundle assembly of `internal/encrypt/encrypt.go`, and the key locator
`keymgmt.EnsureAgeKey`.  Strings are modelled with Lean `String`, but all
character-level operations (prefix test, trimming, splitting on a
separator) are defined structurally over `String.toList` so that every
definition evaluates by `decide`/`rfl`.  Filesystem and subprocess
outcomes are passed in explicitly as environment data.
-/

namespace SimpleSops

/-- A rule of the `.sops.yaml` file (`CreationRule` in `sops_config.go`):
`path_regex`, `age` (comma-joined recipients), `encrypted_regex`
(empty string = absent, matching Go's zero value with `omitempty`). -/
structure CreationRule where
  pathRegex : String
  age : String
  encryptedRegex : String
deriving DecidableEq, Repr

/-- The `.sops.yaml` document (`SopsConfig` in `sops_config.go`). -/
structure SopsConfig where
  creationRules : List CreationRule
deriving DecidableEq, Repr

/-- The fixed wildcard pattern appended by both AddCreationRule variants. -/
def wildcardPattern : String := ".*\\.(ya?ml|json|ini|env)"

/-- In-place update applied to an existing rule by both AddCreationRule
variants: `Age` is always overwritten, `EncryptedRegex` only when the
supplied pattern is non-empty. -/
def updateRule (r : CreationRule) (publicKey encryptedRegex : String) : CreationRule :=
  { r with
    age := publicKey
    encryptedRegex := if encryptedRegex ≠ "" then encryptedRegex else r.encryptedRegex }

/-- The first `for i, rule := range config.CreationRules` loop of
AddCreationRule: update the first rule whose `PathRegex` equals
`filename`, then `break`. -/
def updateFirst (rules : List CreationRule) (filename publicKey encryptedRegex : String) :
    List CreationRule :=
  match rules with
  | [] => []
  | r :: rs =>
    if r.pathRegex = filename then updateRule r publicKey encryptedRegex :: rs
    else r :: updateFirst rs filename publicKey encryptedRegex

/-- The fresh rule built by AddCreationRule when no rule for `filename`
exists (`EncryptedRegex` set only when non-empty, else Go zero value). -/
def newRule (filename publicKey encryptedRegex : String) : CreationRule :=
  { pathRegex := filename
    age := publicKey
    encryptedRegex := if encryptedRegex ≠ "" then encryptedRegex else "" }

/-- The existence scans of AddCreationRule (`ruleExists` / `hasWildcard`
loops): is there a rule whose `PathRegex` equals `pat`? -/
def hasRuleFor (rules : List CreationRule) (pat : String) : Bool :=
  rules.any (fun r => r.pathRegex == pat)

/-- Common body of `AddCreationRule` and `AddCreationRuleWithMultipleKeys`
(the two Go functions are line-for-line identical except for the `Age`
value given to a freshly appended wildcard rule, passed here as
`wildAge`): update the first matching rule, prepend a new rule when none
matches, then append the wildcard rule when absent. -/
def addRuleCore (rules : List CreationRule) (filename publicKey encryptedRegex wildAge : String) :
    List CreationRule :=
  let rules1 := updateFirst rules filename publicKey encryptedRegex
  let rules2 :=
    if hasRuleFor rules1 filename then rules1
    else newRule filename publicKey encryptedRegex :: rules1
  if hasRuleFor rules2 wildcardPattern then rules2
  else rules2 ++ [{ pathRegex := wildcardPattern, age := wildAge, encryptedRegex := "" }]

/-- Model of `config.AddCreationRule`: the wildcard rule, when appended, receives
the operation's public key verbatim. -/
def AddCreationRule (config : SopsConfig) (filename publicKey encryptedRegex : String) :
    SopsConfig :=
  ⟨addRuleCore config.creationRules filename publicKey encryptedRegex publicKey⟩

/-- Index of the first `,` in a character list (`strings.Index(s, ",")`). -/
def commaIdx : List Char → Option Nat
  | [] => none
  | c :: cs => if c = ',' then some 0 else (commaIdx cs).map (fun i => i + 1)

/-- The `firstKey` computation of `AddCreationRuleWithMultipleKeys`: the
prefix before the first comma, but only when that comma's index is
strictly positive (`if idx > 0`); otherwise the whole string. -/
def firstKeyOf (publicKeys : String) : String :=
  match commaIdx publicKeys.toList with
  | some idx => if 0 < idx then String.mk (publicKeys.toList.take idx) else publicKeys
  | none => publicKeys

/-- Model of `config.AddCreationRuleWithMultipleKeys`: the wildcard rule, when
appended, receives only `firstKeyOf publicKeys`. -/
def AddCreationRuleWithMultipleKeys (config : SopsConfig)
    (filename publicKeys encryptedRegex : String) : SopsConfig :=
  ⟨addRuleCore config.creationRules filename publicKeys encryptedRegex (firstKeyOf publicKeys)⟩

/-- Modelled from the spec: "the first comma-separated recipient" of a
recipients string, i.e. the characters before the first comma.  Used to
compare the code's `firstKeyOf` against the spec's words. -/
def specFirstRecipient (s : String) : String :=
  String.mk (s.toList.takeWhile (fun c => decide (c ≠ ',')))

/-- Go's `strings.Contains` specialised to a one-character needle. -/
def containsChar (s : String) (ch : Char) : Bool :=
  s.toList.any (fun c => c = ch)

/-- The retention test of `CleanOrphanedRules`: keep a rule when its
pattern contains a glob character, or when the named file exists
(`fs pat` models "`os.Stat(pat)` does not report not-exist"). -/
def keepRule (fs : String → Bool) (r : CreationRule) : Bool :=
  containsChar r.pathRegex '*' || containsChar r.pathRegex '?' || fs r.pathRegex

/-- The loop of `CleanOrphanedRules`: build the kept list in order and
count the removed (orphaned) rules. -/
def cleanOrphanedAux (fs : String → Bool) : List CreationRule → List CreationRule × Nat
  | [] => ([], 0)
  | r :: rs =>
    let rest := cleanOrphanedAux fs rs
    if containsChar r.pathRegex '*' || containsChar r.pathRegex '?' then (r :: rest.1, rest.2)
    else if !fs r.pathRegex then (rest.1, rest.2 + 1)
    else (r :: rest.1, rest.2)

/-- Model of `config.CleanOrphanedRules`, with the filesystem passed in as `fs`. -/
def CleanOrphanedRules (fs : String → Bool) (config : SopsConfig) : SopsConfig × Nat :=
  let res := cleanOrphanedAux fs config.creationRules
  (⟨res.1⟩, res.2)

/-! ### Key-file parsing (`internal/keymgmt/keymgmt.go`) -/

/-- The literal marker that qualifies a line as a public-key comment. -/
def pkTag : List Char := "# public key:".toList

/-- Go's `strings.HasPrefix` on character lists. -/
def startsWithChars : List Char → List Char → Bool
  | [], _ => true
  | _ :: _, [] => false
  | p :: ps, c :: cs => p = c && startsWithChars ps cs

/-- Go's `strings.Split` for a one-character separator. -/
def splitOnChar (sep : Char) : List Char → List (List Char)
  | [] => [[]]
  | c :: cs =>
    match splitOnChar sep cs with
    | [] => [[]]
    | h :: t => if c = sep then [] :: h :: t else (c :: h) :: t

/-- Go's `strings.TrimSpace` on character lists: drop whitespace from both ends. -/
def trimChars (l : List Char) : List Char :=
  ((l.dropWhile Char.isWhitespace).reverse.dropWhile Char.isWhitespace).reverse

/-- Model of `keymgmt.extractPublicKey`: return, for the first line starting with
the marker, everything after the marker (`strings.TrimPrefix`; note: the
leading space is NOT stripped); `none` models the "public key not found"
error. -/
def extractPublicKey (keyContent : String) : Option String :=
  (splitOnChar '\n' keyContent.toList).findSome? (fun line =>
    if startsWithChars pkTag line then some (String.mk (line.drop pkTag.length)) else none)

/-- Model of `keymgmt.GetPublicKeyFromFile`, at the level of the file's content:
`extractPublicKey` followed by `strings.TrimSpace`. -/
def GetPublicKeyFromContent (content : String) : Option String :=
  (extractPublicKey content).map (fun v => String.mk (trimChars v.toList))

/-- The collection loop of `keymgmt.GetAllPublicKeysFromFile`: for every
line starting with the marker, the fully trimmed remainder, skipped when
empty after trimming. -/
def collectPublicKeys (content : String) : List String :=
  (splitOnChar '\n' content.toList).filterMap (fun line =>
    if startsWithChars pkTag line then
      let pubKey := trimChars (line.drop pkTag.length)
      if pubKey ≠ [] then some (String.mk pubKey) else none
    else none)

/-- Model of `keymgmt.GetAllPublicKeysFromFile`, at the level of the file's
content: `none` models the "no public keys found in key file" error. -/
def GetAllPublicKeysFromContent (content : String) : Option (List String) :=
  let ks := collectPublicKeys content
  if ks = [] then none else some ks

/-! ### Multi-key bundle assembly (`internal/encrypt/encrypt.go`,
`EncryptFilesWithMultipleKeys`, bundle-assembly portion) -/

/-- Go's `strings.HasSuffix` with the newline suffix. -/
def endsWithNewline (s : String) : Bool :=
  decide (s.toList.getLast? = some '\n')

/-- Appending one source's content to the combined bundle file, adding a
newline separator when the content does not already end in one. -/
def appendKeyContent (bundle content : String) : String :=
  bundle ++ content ++ (if endsWithNewline content then "" else "\n")

/-- One assembly step on the state (bundle contents, `keysAdded`): a
failed source (`none`) is skipped, a successful one is appended. -/
def addSource (st : String × Bool) (res : Option String) : String × Bool :=
  match res with
  | some c => (appendKeyContent st.1 c, true)
  | none => st

/-- Environment of one `EncryptFilesWithMultipleKeys` bundle assembly:
`opItemsPresent` is `len(opItems) > 0`; `opContent` is the content read
from the 1Password combined key file (`none` = fetch or read failed);
`keyFiles` holds each key file's content (`none` = expand or read
failed); `ensureOk` is whether the fallback `EnsureAgeKey` call
succeeds, and `defaultContent` the content read from the path it
returned (`none` = read failed). -/
structure AggEnv where
  opItemsPresent : Bool
  opContent : Option String
  keyFiles : List (Option String)
  alwaysUseOnePassword : Bool
  ensureOk : Bool
  defaultContent : Option String
deriving DecidableEq, Repr

/-- The two error exits of the assembly step: `getAnyKeysFailed` is the
wrapped "failed to get any keys" return, `noValidKeys` the
"no valid keys found from any source" return. -/
inductive AggError where
  | getAnyKeysFailed
  | noValidKeys
deriving DecidableEq, Repr

/-- Outcome of the bundle assembly: the combined bundle's content, or one
of the two error returns. -/
inductive AggResult where
  | ok (bundle : String)
  | error (e : AggError)
deriving DecidableEq, Repr

/-- The bundle-assembly portion of `EncryptFilesWithMultipleKeys`
(lines 85–196): 1Password keys first, then each key file, then — only
when nothing was added and `alwaysUseOnePassword` — the default key; a
failing 1Password or key-file source is logged and skipped, a failing
fallback `EnsureAgeKey` aborts, and an assembly to which nothing was
added fails with `noValidKeys`. -/
def assembleCombinedKeys (env : AggEnv) : AggResult :=
  let st0 : String × Bool := ("", false)
  let st1 := if env.opItemsPresent then addSource st0 env.opContent else st0
  let st2 := env.keyFiles.foldl addSource st1
  if !st2.2 && env.alwaysUseOnePassword then
    if !env.ensureOk then AggResult.error AggError.getAnyKeysFailed
    else
      let st3 := addSource st2 env.defaultContent
      if !st3.2 then AggResult.error AggError.noValidKeys else AggResult.ok st3.1
  else if !st2.2 then AggResult.error AggError.noValidKeys
  else AggResult.ok st2.1

/-- Whether the 1Password phase or any key file contributed content. -/
def phase12Contributed (env : AggEnv) : Bool :=
  (env.opItemsPresent && env.opContent.isSome) || env.keyFiles.any (fun kf => kf.isSome)

/-- Whether any source at all contributed content to the combined bundle
(the fallback default key is attempted only when the first two phases
contributed nothing and `alwaysUseOnePassword` is set). -/
def contributedAny (env : AggEnv) : Bool :=
  phase12Contributed env ||
    (!phase12Contributed env && env.alwaysUseOnePassword && env.ensureOk &&
      env.defaultContent.isSome)

/-! ### Key locator (`keymgmt.EnsureAgeKey` and
`keymgmt.GetKeysFromOnePassword`) -/

/-- The append loop of `GetKeysFromOnePassword`: each item's fetched
content (`none` = `getKeyContentFromOnePassword` failed, which is logged
and skipped) is appended, newline-separated, to the combined temp file. -/
def opFetchFold (items : List (Option String)) : String :=
  items.foldl (fun acc it =>
    match it with
    | some c => appendKeyContent acc c
    | none => acc) ""

/-- Model of `keymgmt.GetKeysFromOnePassword`, returning the combined file's
content: fails only when the `op` CLI is unavailable (or temp-file setup
fails), both folded into `setupOk`; per-item failures are skipped and do
NOT fail the call, so an all-items-failed call succeeds with an empty
combined file. -/
def GetKeysFromOnePassword (setupOk : Bool) (items : List (Option String)) : Option String :=
  if setupOk then some (opFetchFold items) else none

/-- Environment of one `EnsureAgeKey` call: `opSetupOk` is the outcome of
`checkOnePasswordCLI` plus temp-file setup, `opItemFetches` the per-item
fetch outcomes for the supplied `opItems`, `defaultFetch` the outcome of
`GetKeyFromOnePassword(DefaultOnePasswordItem)` (`none` = any failure),
and `fileExists` the outcome of `os.Stat` on the expanded key-file path. -/
structure LocatorEnv where
  opSetupOk : Bool
  opItemFetches : List (Option String)
  defaultFetch : Option String
  fileExists : Bool
deriving DecidableEq, Repr

/-- A successful `EnsureAgeKey` result: a temporary combined bundle (with
its content), a temporary single-key file (with its content), or the
caller-supplied key file path (not temporary). -/
inductive LocatedKey where
  | tempBundle (content : String)
  | tempSingle (content : String)
  | filePath
deriving DecidableEq, Repr

/-- Model of `keymgmt.EnsureAgeKey`: when `alwaysUseOnePassword && useOnePassword`,
try 1Password first (multi-item when `opItems` non-empty, else the
default item); then the explicit key file if it exists; then 1Password
again when `useOnePassword`; `none` models the final "no Age key
available" error. -/
def EnsureAgeKey (env : LocatorEnv) (keyFile : String)
    (useOnePassword alwaysUseOnePassword : Bool) : Option LocatedKey :=
  let tryOnePassword : Option LocatedKey :=
    if env.opItemFetches.length > 0 then
      (GetKeysFromOnePassword env.opSetupOk env.opItemFetches).map
        (fun c => LocatedKey.tempBundle c)
    else
      env.defaultFetch.map (fun c => LocatedKey.tempSingle c)
  match (if alwaysUseOnePassword && useOnePassword then tryOnePassword else none) with
  | some k => some k
  | none =>
    if keyFile ≠ "" ∧ env.fileExists = true then some LocatedKey.filePath
    else if useOnePassword then tryOnePassword
    else none

/-- Whether the 1Password attempt inside `EnsureAgeKey` succeeds: with
items supplied this requires only the CLI/setup to be available (item
failures are skipped); without items it requires the default-item fetch
to succeed. -/
def opSourceOk (env : LocatorEnv) : Bool :=
  if env.opItemFetches.length > 0 then env.opSetupOk else env.defaultFetch.isSome

/-! ## Helper lemmas: rule store -/

theorem updateRule_pathRegex (r : CreationRule) (k rgx : String) :
    (updateRule r k rgx).pathRegex = r.pathRegex := rfl

theorem updateRule_idem (r : CreationRule) (k rgx : String) :
    updateRule (updateRule r k rgx) k rgx = updateRule r k rgx := by
  simp only [updateRule]
  by_cases h : rgx = "" <;> simp [h]

theorem updateRule_newRule (f k rgx : String) :
    updateRule (newRule f k rgx) k rgx = newRule f k rgx := by
  simp only [updateRule, newRule]
  by_cases h : rgx = "" <;> simp [h]

theorem hasRuleFor_cons (r : CreationRule) (rs : List CreationRule) (pat : String) :
    hasRuleFor (r :: rs) pat = ((r.pathRegex == pat) || hasRuleFor rs pat) := rfl

theorem hasRuleFor_append (l s : List CreationRule) (pat : String) :
    hasRuleFor (l ++ s) pat = (hasRuleFor l pat || hasRuleFor s pat) := by
  simp [hasRuleFor, List.any_append]

theorem hasRuleFor_updateFirst (l : List CreationRule) (f k rgx pat : String) :
    hasRuleFor (updateFirst l f k rgx) pat = hasRuleFor l pat := by
  induction l with
  | nil => rfl
  | cons r rs ih =>
    by_cases h : r.pathRegex = f
    · simp [updateFirst, h, hasRuleFor_cons, updateRule_pathRegex]
    · simp [updateFirst, h, hasRuleFor_cons, ih]

theorem length_updateFirst (l : List CreationRule) (f k rgx : String) :
    (updateFirst l f k rgx).length = l.length := by
  induction l with
  | nil => rfl
  | cons r rs ih =>
    by_cases h : r.pathRegex = f <;> simp [updateFirst, h, ih]

theorem updateFirst_updateFirst (l : List CreationRule) (f k rgx : String) :
    updateFirst (updateFirst l f k rgx) f k rgx = updateFirst l f k rgx := by
  induction l with
  | nil => rfl
  | cons r rs ih =>
    by_cases h : r.pathRegex = f
    · simp [updateFirst, h, updateRule_pathRegex, updateRule_idem]
    · simp [updateFirst, h, ih]

theorem updateFirst_eq_of_not_has (l : List CreationRule) (f k rgx : String)
    (h : hasRuleFor l f = false) : updateFirst l f k rgx = l := by
  induction l with
  | nil => rfl
  | cons r rs ih =>
    simp only [hasRuleFor_cons, Bool.or_eq_false_iff, beq_eq_false_iff_ne] at h
    simp [updateFirst, h.1, ih h.2]

theorem updateFirst_append_of_has (l s : List CreationRule) (f k rgx : String)
    (h : hasRuleFor l f = true) :
    updateFirst (l ++ s) f k rgx = updateFirst l f k rgx ++ s := by
  induction l with
  | nil => simp [hasRuleFor] at h
  | cons r rs ih =>
    by_cases hr : r.pathRegex = f
    · simp [updateFirst, hr]
    · simp only [hasRuleFor_cons, Bool.or_eq_true, beq_iff_eq] at h
      rcases h with h | h
      · exact absurd h hr
      · simp [updateFirst, hr, ih h]

theorem updateFirst_cons_newRule (l : List CreationRule) (f k rgx : String) :
    updateFirst (newRule f k rgx :: l) f k rgx = newRule f k rgx :: l := by
  have hp : (newRule f k rgx).pathRegex = f := rfl
  simp [updateFirst, hp, updateRule_newRule]

theorem updateFirst_filter (l : List CreationRule) (f k rgx : String)
    (p : CreationRule → Bool) (hp : ∀ r : CreationRule, r.pathRegex = f → p r = false) :
    (updateFirst l f k rgx).filter p = l.filter p := by
  induction l with
  | nil => rfl
  | cons r rs ih =>
    by_cases h : r.pathRegex = f
    · have h1 : p r = false := hp r h
      have h2 : p (updateRule r k rgx) = false := hp _ (by simp [updateRule_pathRegex, h])
      simp [updateFirst, h, List.filter_cons, h1, h2]
    · simp [updateFirst, h, List.filter_cons, ih]

theorem hasRuleFor_singleton (r : CreationRule) (pat : String) :
    hasRuleFor [r] pat = (r.pathRegex == pat) := by
  simp [hasRuleFor]

theorem hasRuleFor_addRuleCore_self (l : List CreationRule) (f k rgx w : String) :
    hasRuleFor (addRuleCore l f k rgx w) f = true := by
  simp only [addRuleCore]
  by_cases h1 : hasRuleFor (updateFirst l f k rgx) f
  · rw [if_pos h1]
    by_cases h2 : hasRuleFor (updateFirst l f k rgx) wildcardPattern
    · rw [if_pos h2]; exact h1
    · rw [if_neg h2]; rw [hasRuleFor_append, h1, Bool.true_or]
  · rw [if_neg h1]
    have hhas : hasRuleFor (newRule f k rgx :: updateFirst l f k rgx) f = true := by
      simp [hasRuleFor_cons, newRule]
    by_cases h2 : hasRuleFor (newRule f k rgx :: updateFirst l f k rgx) wildcardPattern
    · rw [if_pos h2]; exact hhas
    · rw [if_neg h2]; simp [hasRuleFor_cons, newRule]

theorem hasRuleFor_addRuleCore_wildcard (l : List CreationRule) (f k rgx w : String) :
    hasRuleFor (addRuleCore l f k rgx w) wildcardPattern = true := by
  simp only [addRuleCore]
  by_cases h1 : hasRuleFor (updateFirst l f k rgx) f
  · rw [if_pos h1]
    by_cases h2 : hasRuleFor (updateFirst l f k rgx) wildcardPattern
    · rw [if_pos h2]; exact h2
    · rw [if_neg h2]; simp [hasRuleFor_append, hasRuleFor_singleton]
  · rw [if_neg h1]
    by_cases h2 : hasRuleFor (newRule f k rgx :: updateFirst l f k rgx) wildcardPattern
    · rw [if_pos h2]; exact h2
    · rw [if_neg h2]
      simp [hasRuleFor_cons, hasRuleFor_append, hasRuleFor_singleton]

theorem updateFirst_addRuleCore (l : List CreationRule) (f k rgx w : String) :
    updateFirst (addRuleCore l f k rgx w) f k rgx = addRuleCore l f k rgx w := by
  simp only [addRuleCore]
  by_cases h1 : hasRuleFor (updateFirst l f k rgx) f
  · rw [if_pos h1]
    by_cases h2 : hasRuleFor (updateFirst l f k rgx) wildcardPattern
    · rw [if_pos h2, updateFirst_updateFirst]
    · rw [if_neg h2, updateFirst_append_of_has _ _ _ _ _ h1, updateFirst_updateFirst]
  · rw [if_neg h1]
    have hhas : hasRuleFor (newRule f k rgx :: updateFirst l f k rgx) f = true := by
      simp [hasRuleFor_cons, newRule]
    by_cases h2 : hasRuleFor (newRule f k rgx :: updateFirst l f k rgx) wildcardPattern
    · rw [if_pos h2, updateFirst_cons_newRule]
    · rw [if_neg h2, updateFirst_append_of_has _ _ _ _ _ hhas, updateFirst_cons_newRule]

theorem addRuleCore_idem (l : List CreationRule) (f k rgx w w2 : String) :
    addRuleCore (addRuleCore l f k rgx w) f k rgx w2 = addRuleCore l f k rgx w := by
  have h1 := hasRuleFor_addRuleCore_self l f k rgx w
  have h2 := hasRuleFor_addRuleCore_wildcard l f k rgx w
  have hu := updateFirst_addRuleCore l f k rgx w
  set out := addRuleCore l f k rgx w with hout
  simp only [addRuleCore]
  rw [hu, if_pos h1, if_pos h2]

theorem length_addRuleCore (l : List CreationRule) (f k rgx w : String) :
    l.length ≤ (addRuleCore l f k rgx w).length := by
  simp only [addRuleCore]
  by_cases h1 : hasRuleFor (updateFirst l f k rgx) f
  · rw [if_pos h1]
    by_cases h2 : hasRuleFor (updateFirst l f k rgx) wildcardPattern
    · rw [if_pos h2, length_updateFirst]
    · rw [if_neg h2]; simp [length_updateFirst]
  · rw [if_neg h1]
    by_cases h2 : hasRuleFor (newRule f k rgx :: updateFirst l f k rgx) wildcardPattern
    · rw [if_pos h2]; simp [length_updateFirst]
    · rw [if_neg h2]; simp [length_updateFirst]; omega

theorem addRuleCore_filter (l : List CreationRule) (f k rgx w : String)
    (p : CreationRule → Bool) (hpf : ∀ r : CreationRule, r.pathRegex = f → p r = false)
    (hpw : ∀ r : CreationRule, r.pathRegex = wildcardPattern → p r = false) :
    (addRuleCore l f k rgx w).filter p = l.filter p := by
  simp only [addRuleCore]
  have hu := updateFirst_filter l f k rgx p hpf
  have hnew : p (newRule f k rgx) = false := hpf _ rfl
  have hwild : p ⟨wildcardPattern, w, ""⟩ = false := hpw _ rfl
  by_cases h1 : hasRuleFor (updateFirst l f k rgx) f
  · rw [if_pos h1]
    by_cases h2 : hasRuleFor (updateFirst l f k rgx) wildcardPattern
    · rw [if_pos h2, hu]
    · rw [if_neg h2]; simp [List.filter_append, List.filter_cons, hu, hwild]
  · rw [if_neg h1]
    by_cases h2 : hasRuleFor (newRule f k rgx :: updateFirst l f k rgx) wildcardPattern
    · rw [if_pos h2]; simp [List.filter_cons, hu, hnew]
    · rw [if_neg h2]; simp [List.filter_append, List.filter_cons, hu, hnew, hwild]

theorem addRuleCore_filter_wildcard (l : List CreationRule) (f k rgx w : String)
    (hf : f ≠ wildcardPattern) :
    (addRuleCore l f k rgx w).filter (fun r => r.pathRegex == wildcardPattern)
      = (if hasRuleFor l wildcardPattern then
           l.filter (fun r => r.pathRegex == wildcardPattern)
         else l.filter (fun r => r.pathRegex == wildcardPattern)
           ++ [CreationRule.mk wildcardPattern w ""]) := by
  simp only [addRuleCore]
  have hpf : ∀ r : CreationRule, r.pathRegex = f →
      (fun r : CreationRule => r.pathRegex == wildcardPattern) r = false := by
    intro r hr
    simp [hr, hf]
  have hu := updateFirst_filter l f k rgx _ hpf
  have hnew : (fun r : CreationRule => r.pathRegex == wildcardPattern) (newRule f k rgx)
      = false := hpf _ rfl
  have hw1 : hasRuleFor (updateFirst l f k rgx) wildcardPattern = hasRuleFor l wildcardPattern :=
    hasRuleFor_updateFirst l f k rgx wildcardPattern
  have hw2 : hasRuleFor (newRule f k rgx :: updateFirst l f k rgx) wildcardPattern
      = hasRuleFor l wildcardPattern := by
    simp [hasRuleFor_cons, newRule, hf, hw1]
  by_cases h1 : hasRuleFor (updateFirst l f k rgx) f
  · rw [if_pos h1]
    by_cases h2 : hasRuleFor l wildcardPattern
    · rw [if_pos (hw1.trans h2), if_pos h2, hu]
    · rw [if_neg (by rw [hw1]; exact h2), if_neg h2]
      simp [List.filter_append, List.filter_cons, hu]
  · rw [if_neg h1]
    by_cases h2 : hasRuleFor l wildcardPattern
    · rw [if_pos (hw2.trans h2), if_pos h2]; simp [List.filter_cons, hu, hnew]
    · rw [if_neg (by rw [hw2]; exact h2), if_neg h2]
      simp [List.filter_append, List.filter_cons, hu, hnew]

theorem addRuleCore_fresh (l : List CreationRule) (f k rgx w : String)
    (h1 : hasRuleFor l wildcardPattern = false) (h2 : hasRuleFor l f = false)
    (h3 : f ≠ wildcardPattern) :
    addRuleCore l f k rgx w
      = newRule f k rgx :: l ++ [CreationRule.mk wildcardPattern w ""] := by
  have hw : hasRuleFor (newRule f k rgx :: l) wildcardPattern = false := by
    simp [hasRuleFor_cons, newRule, h3, h1]
  simp only [addRuleCore]
  rw [updateFirst_eq_of_not_has l f k rgx h2]
  rw [if_neg (show ¬hasRuleFor l f = true by simp [h2])]
  rw [if_neg (show ¬hasRuleFor (newRule f k rgx :: l) wildcardPattern = true by simp [hw])]

/-! ## Helper lemmas: first comma-separated recipient -/

theorem toList_mk (l : List Char) : (String.mk l).toList = l := rfl

theorem commaIdx_none_takeWhile (l : List Char) (h : commaIdx l = none) :
    l.takeWhile (fun c => decide (c ≠ ',')) = l := by
  induction l with
  | nil => rfl
  | cons c cs ih =>
    by_cases hc : c = ','
    · rw [commaIdx, if_pos hc] at h
      exact absurd h (by simp)
    · rw [commaIdx, if_neg hc] at h
      cases hcs : commaIdx cs with
      | none =>
        rw [List.takeWhile_cons_of_pos (by simp [hc]), ih hcs]
      | some j => rw [hcs] at h; simp at h

theorem commaIdx_some_take (l : List Char) (i : Nat) (h : commaIdx l = some i) :
    l.take i = l.takeWhile (fun c => decide (c ≠ ',')) := by
  induction l generalizing i with
  | nil => simp [commaIdx] at h
  | cons c cs ih =>
    by_cases hc : c = ','
    · rw [commaIdx, if_pos hc] at h
      injection h with h0
      subst h0
      subst hc
      rw [List.take_zero, List.takeWhile_cons_of_neg (by decide)]
    · rw [commaIdx, if_neg hc] at h
      cases hcs : commaIdx cs with
      | none => rw [hcs] at h; simp at h
      | some j =>
        rw [hcs] at h
        have h2 : j + 1 = i := by simpa using h
        rw [← h2]
        rw [List.take_succ_cons, List.takeWhile_cons_of_pos (by simp [hc]), ih j hcs]

theorem commaIdx_zero_head (l : List Char) (h : commaIdx l = some 0) :
    l.head? = some ',' := by
  cases l with
  | nil => simp [commaIdx] at h
  | cons c cs =>
    by_cases hc : c = ','
    · simp [hc]
    · rw [commaIdx, if_neg hc] at h
      cases hcs : commaIdx cs with
      | none => rw [hcs] at h; simp at h
      | some j => rw [hcs] at h; simp at h

theorem firstKeyOf_eq_specFirstRecipient (s : String) (h : s.toList.head? ≠ some ',') :
    firstKeyOf s = specFirstRecipient s := by
  unfold firstKeyOf specFirstRecipient
  split
  next i heq =>
    have hi : 0 < i := by
      rcases Nat.eq_zero_or_pos i with hz | hp
      · subst hz
        exact absurd (commaIdx_zero_head _ heq) h
      · exact hp
    rw [if_pos hi, commaIdx_some_take _ _ heq]
  next heq =>
    rw [commaIdx_none_takeWhile _ heq]
    cases s
    rfl

/-! ## Helper lemmas: key-file parsing -/

theorem findSome?_classify {α β : Type} (p : α → Bool) (f : α → β) (l : List α) :
    (l.findSome? (fun a => if p a then some (f a) else none)) = (l.find? p).map f := by
  induction l with
  | nil => rfl
  | cons a as ih =>
    by_cases h : p a <;> simp [List.findSome?_cons, List.find?_cons, h, ih]

theorem filterMap_classify (lines : List (List Char)) :
    (lines.filterMap (fun line =>
      if startsWithChars pkTag line then
        let pubKey := trimChars (line.drop pkTag.length)
        if pubKey ≠ [] then some (String.mk pubKey) else none
      else none))
    = (((lines.filter (fun line => startsWithChars pkTag line)).map
        (fun line => trimChars (line.drop pkTag.length))).filter
          (fun v => decide (v ≠ []))).map String.mk := by
  induction lines with
  | nil => rfl
  | cons a as ih =>
    by_cases h1 : startsWithChars pkTag a
    · rw [List.filter_cons, if_pos h1, List.map_cons, List.filter_cons]
      by_cases h2 : trimChars (a.drop pkTag.length) = []
      · rw [List.filterMap_cons_none (by simp [h1, h2]), if_neg (by simp [h2]), ih]
      · rw [List.filterMap_cons_some
            (show _ = some (String.mk (trimChars (a.drop pkTag.length))) by simp [h1, h2]),
          if_pos (by simp [h2]), List.map_cons, ih]
    · rw [List.filterMap_cons_none (by simp [h1]), List.filter_cons, if_neg (by simp [h1]), ih]

theorem mk_ne_empty (t : List Char) (h : t ≠ []) : String.mk t ≠ "" := by
  intro hc
  apply h
  have hdata := congrArg String.data hc
  simpa using hdata

/-! ## Helper lemmas: bundle assembly and locator -/

theorem foldl_addSource_snd (l : List (Option String)) (st : String × Bool) :
    (l.foldl addSource st).2 = (st.2 || l.any (fun kf => kf.isSome)) := by
  induction l generalizing st with
  | nil => simp
  | cons a as ih =>
    cases a with
    | none => simp [List.foldl_cons, addSource, ih]
    | some c => simp [List.foldl_cons, addSource, ih]

/-! ## Helper lemmas: orphaned-rule pruning -/

theorem cleanOrphanedAux_spec (fs : String → Bool) (l : List CreationRule) :
    (cleanOrphanedAux fs l).1 = l.filter (keepRule fs)
  ∧ (cleanOrphanedAux fs l).2 = (l.filter (fun r => !keepRule fs r)).length := by
  induction l with
  | nil => exact ⟨rfl, rfl⟩
  | cons r rs ih =>
    by_cases hg : (containsChar r.pathRegex '*' || containsChar r.pathRegex '?') = true
    · have hk : keepRule fs r = true := by
        simp only [keepRule, Bool.or_eq_true] at hg ⊢
        tauto
      constructor <;> simp [cleanOrphanedAux, hg, List.filter_cons, hk, ih.1, ih.2]
    · have hg2 : (containsChar r.pathRegex '*' || containsChar r.pathRegex '?') = false := by
        simpa using hg
      by_cases hf : fs r.pathRegex = true
      · have hk : keepRule fs r = true := by simp [keepRule, hf]
        constructor <;> simp [cleanOrphanedAux, hg, hf, List.filter_cons, hk, ih.1, ih.2]
      · have hf2 : fs r.pathRegex = false := by simpa using hf
        have hk : keepRule fs r = false := by simp [keepRule, hg2, hf2]
        constructor <;> simp [cleanOrphanedAux, hg, hf2, List.filter_cons, hk, ih.1, ih.2]

theorem filter_length_partition (p : CreationRule → Bool) (l : List CreationRule) :
    (l.filter (fun r => !p r)).length + (l.filter p).length = l.length := by
  induction l with
  | nil => rfl
  | cons r rs ih => by_cases h : p r <;> simp [List.filter_cons, h] <;> omega

/-! ## Claim theorems -/

/-- C2: every `AddCreationRule` call (the function always succeeds) leaves
the fixed wildcard rule present in the RuleFile, and on an empty RuleFile
`AddRule(file="a.env", key="pub1")` yields exactly the two-element
sequence `[{a.env, pub1}, {wildcard, pub1}]` in that order. -/
theorem C2_wildcard_always_present :
    (∀ (c : SopsConfig) (f k rgx : String),
      hasRuleFor (AddCreationRule c f k rgx).creationRules wildcardPattern = true)
  ∧ (AddCreationRule ⟨[]⟩ "a.env" "pub1" "").creationRules
      = [CreationRule.mk "a.env" "pub1" "", CreationRule.mk wildcardPattern "pub1" ""] :=
  ⟨fun c f k rgx => hasRuleFor_addRuleCore_wildcard c.creationRules f k rgx k, by decide⟩

/-- C3: both `AddCreationRule` and `AddCreationRuleWithMultipleKeys` are
idempotent: applying either twice with identical
(filename, recipients, fieldsPattern) arguments produces the same
RuleFile as applying it once. -/
theorem C3_addRule_idempotent (c : SopsConfig) (f k rgx : String) :
    AddCreationRule (AddCreationRule c f k rgx) f k rgx = AddCreationRule c f k rgx
  ∧ AddCreationRuleWithMultipleKeys (AddCreationRuleWithMultipleKeys c f k rgx) f k rgx
      = AddCreationRuleWithMultipleKeys c f k rgx := by
  constructor
  · simp only [AddCreationRule]
    rw [addRuleCore_idem]
  · simp only [AddCreationRuleWithMultipleKeys]
    rw [addRuleCore_idem]

/-- C4: `CleanOrphanedRules` keeps exactly the rules whose pattern
contains a glob character (`*` or `?`) or whose literal filename exists,
in their original relative order; the returned count equals the number
of removed rules, so count plus retained length is the original length. -/
theorem C4_prune_characterization (fs : String → Bool) (c : SopsConfig) :
    (CleanOrphanedRules fs c).1.creationRules = c.creationRules.filter (keepRule fs)
  ∧ (CleanOrphanedRules fs c).2 = (c.creationRules.filter (fun r => !keepRule fs r)).length
  ∧ (CleanOrphanedRules fs c).2 + (CleanOrphanedRules fs c).1.creationRules.length
      = c.creationRules.length := by
  obtain ⟨h1, h2⟩ := cleanOrphanedAux_spec fs c.creationRules
  refine ⟨h1, h2, ?_⟩
  show (cleanOrphanedAux fs c.creationRules).2
      + (cleanOrphanedAux fs c.creationRules).1.length = c.creationRules.length
  rw [h1, h2]
  exact filter_length_partition (keepRule fs) c.creationRules

/-- C5 counterexample: on a RuleFile already containing the wildcard rule
(with recipients `k1`), `AddCreationRule` for a new file with key `k2`
leaves the wildcard rule's recipients at `k1` instead of updating them in
place to `k2`, refuting the claim that every AddRule call updates the
existing wildcard rule's recipients. -/
theorem C5_counterexample :
    (AddCreationRule
        ⟨[CreationRule.mk "a.env" "k1" "", CreationRule.mk wildcardPattern "k1" ""]⟩
        "b.env" "k2" "").creationRules
      = [CreationRule.mk "b.env" "k2" "", CreationRule.mk "a.env" "k1" "",
         CreationRule.mk wildcardPattern "k1" ""]
  ∧ ("k1" : String) ≠ "k2" := by decide

/-- C5 (amended): for a filename other than the wildcard pattern itself,
an AddRule call (either variant) leaves the wildcard entries of a
RuleFile that already contains the wildcard rule entirely unchanged; the
operation's key (respectively its first comma-separated portion) reaches
the wildcard rule only when the wildcard rule was absent and is freshly
appended. -/
theorem C5_wildcard_only_set_when_appended (c : SopsConfig) (f k rgx : String)
    (hf : f ≠ wildcardPattern) :
    ((AddCreationRule c f k rgx).creationRules.filter
        (fun r => r.pathRegex == wildcardPattern)
      = (if hasRuleFor c.creationRules wildcardPattern then
           c.creationRules.filter (fun r => r.pathRegex == wildcardPattern)
         else c.creationRules.filter (fun r => r.pathRegex == wildcardPattern)
           ++ [CreationRule.mk wildcardPattern k ""]))
  ∧ ((AddCreationRuleWithMultipleKeys c f k rgx).creationRules.filter
        (fun r => r.pathRegex == wildcardPattern)
      = (if hasRuleFor c.creationRules wildcardPattern then
           c.creationRules.filter (fun r => r.pathRegex == wildcardPattern)
         else c.creationRules.filter (fun r => r.pathRegex == wildcardPattern)
           ++ [CreationRule.mk wildcardPattern (firstKeyOf k) ""])) :=
  ⟨addRuleCore_filter_wildcard c.creationRules f k rgx k hf,
   addRuleCore_filter_wildcard c.creationRules f k rgx (firstKeyOf k) hf⟩

/-- C5 witness: concrete instance of the amended claim, with the wildcard
rule present and untouched. -/
theorem C5_witness :
    (AddCreationRule ⟨[CreationRule.mk wildcardPattern "k0" ""]⟩ "a.env" "k1" "").creationRules.filter
        (fun r => r.pathRegex == wildcardPattern)
      = [CreationRule.mk wildcardPattern "k0" ""] :=
  ((C5_wildcard_only_set_when_appended ⟨[CreationRule.mk wildcardPattern "k0" ""]⟩
      "a.env" "k1" "" (by decide)).1).trans (by decide)

/-- C6 counterexample: for the recipients string `,k2` (whose first
comma-separated recipient is the empty string), the freshly appended
wildcard rule receives the whole string `,k2` — the Go code takes the
prefix before the first comma only when that comma's index is strictly
positive — refuting the claim for every comma-joined recipients string. -/
theorem C6_counterexample :
    (AddCreationRuleWithMultipleKeys ⟨[]⟩ "a.env" ",k2" "").creationRules
      = [CreationRule.mk "a.env" ",k2" "", CreationRule.mk wildcardPattern ",k2" ""]
  ∧ specFirstRecipient ",k2" = ""
  ∧ (",k2" : String) ≠ "" := by decide

/-- C6 (amended): when the recipients string does not begin with a comma,
a fresh `AddCreationRuleWithMultipleKeys` call (no pre-existing rule for
the file, no wildcard rule yet) prepends a per-file rule keeping the full
comma-joined string and appends a wildcard rule whose recipients are
exactly the first comma-separated recipient. -/
theorem C6_fresh_wildcard_first_recipient (c : SopsConfig) (f k rgx : String)
    (h1 : hasRuleFor c.creationRules wildcardPattern = false)
    (h2 : hasRuleFor c.creationRules f = false)
    (h3 : f ≠ wildcardPattern)
    (h4 : k.toList.head? ≠ some ',') :
    (AddCreationRuleWithMultipleKeys c f k rgx).creationRules
      = newRule f k rgx :: c.creationRules
          ++ [CreationRule.mk wildcardPattern (specFirstRecipient k) ""] := by
  have hfresh : (AddCreationRuleWithMultipleKeys c f k rgx).creationRules
      = newRule f k rgx :: c.creationRules
          ++ [CreationRule.mk wildcardPattern (firstKeyOf k) ""] :=
    addRuleCore_fresh c.creationRules f k rgx (firstKeyOf k) h1 h2 h3
  rw [hfresh, firstKeyOf_eq_specFirstRecipient k h4]

/-- C6 witness: concrete instance of the amended claim. -/
theorem C6_witness :
    (AddCreationRuleWithMultipleKeys ⟨[]⟩ "a.env" "k1,k2" "").creationRules
      = [CreationRule.mk "a.env" "k1,k2" "", CreationRule.mk wildcardPattern "k1" ""] :=
  (C6_fresh_wildcard_first_recipient ⟨[]⟩ "a.env" "k1,k2" "" (by decide) (by decide)
      (by decide) (by decide)).trans (by decide)

/-- C9: an AddRule call (either variant) with filename `f` leaves every
rule whose pattern differs from both `f` and the wildcard pattern
byte-for-byte unchanged and in its relative order (stated as equality of
the filtered sublists), and never removes a rule (the rule count never
decreases). -/
theorem C9_frame_preservation (c : SopsConfig) (f k rgx : String) :
    ((AddCreationRule c f k rgx).creationRules.filter
        (fun r => decide (r.pathRegex ≠ f ∧ r.pathRegex ≠ wildcardPattern))
      = c.creationRules.filter
          (fun r => decide (r.pathRegex ≠ f ∧ r.pathRegex ≠ wildcardPattern)))
  ∧ c.creationRules.length ≤ (AddCreationRule c f k rgx).creationRules.length
  ∧ ((AddCreationRuleWithMultipleKeys c f k rgx).creationRules.filter
        (fun r => decide (r.pathRegex ≠ f ∧ r.pathRegex ≠ wildcardPattern))
      = c.creationRules.filter
          (fun r => decide (r.pathRegex ≠ f ∧ r.pathRegex ≠ wildcardPattern)))
  ∧ c.creationRules.length ≤ (AddCreationRuleWithMultipleKeys c f k rgx).creationRules.length := by
  have hpf : ∀ r : CreationRule, r.pathRegex = f →
      decide (r.pathRegex ≠ f ∧ r.pathRegex ≠ wildcardPattern) = false := by
    intro r hr
    simp [hr]
  have hpw : ∀ r : CreationRule, r.pathRegex = wildcardPattern →
      decide (r.pathRegex ≠ f ∧ r.pathRegex ≠ wildcardPattern) = false := by
    intro r hr
    simp [hr]
  exact ⟨addRuleCore_filter c.creationRules f k rgx k _ hpf hpw,
    length_addRuleCore c.creationRules f k rgx k,
    addRuleCore_filter c.creationRules f k rgx (firstKeyOf k) _ hpf hpw,
    length_addRuleCore c.creationRules f k rgx (firstKeyOf k)⟩

/-- C7 counterexample: on the line `# public key: age1abc` the single-key
extractor returns `" age1abc"` with the leading space preserved
(`strings.TrimPrefix` removes only the marker), not `"age1abc"` as the
claim's "single leading space stripped" rule predicts. -/
theorem C7_counterexample :
    extractPublicKey "# public key: age1abc" = some " age1abc"
  ∧ extractPublicKey "# public key: age1abc" ≠ some "age1abc" := by decide

/-- C7 (amended): both extractors classify exactly the lines starting
with the literal marker `# public key:`; the single-key extractor returns
everything after the marker of the first such line with nothing removed
(leading space preserved; the file-level wrapper `GetPublicKeyFromFile`
additionally trims fully), and the multi-key collector returns the fully
trimmed values of all such lines in file order, skipping values that are
empty after trimming. -/
theorem C7_extractor_agreement (content : String) :
    extractPublicKey content
      = ((splitOnChar '\n' content.toList).find? (fun line => startsWithChars pkTag line)).map
          (fun line => String.mk (line.drop pkTag.length))
  ∧ GetPublicKeyFromContent content
      = ((splitOnChar '\n' content.toList).find? (fun line => startsWithChars pkTag line)).map
          (fun line => String.mk (trimChars (line.drop pkTag.length)))
  ∧ collectPublicKeys content
      = ((((splitOnChar '\n' content.toList).filter
            (fun line => startsWithChars pkTag line)).map
              (fun line => trimChars (line.drop pkTag.length))).filter
                (fun v => decide (v ≠ []))).map String.mk := by
  refine ⟨?_, ?_, ?_⟩
  · exact findSome?_classify _ _ _
  · simp only [GetPublicKeyFromContent, extractPublicKey]
    rw [findSome?_classify]
    cases hfind : (splitOnChar '\n' content.toList).find?
        (fun line => startsWithChars pkTag line) with
    | none => rfl
    | some line => simp [toList_mk]
  · simp only [collectPublicKeys]
    exact filterMap_classify _

/-- C10: the multi-key collector never returns an empty string (values
empty after trimming are skipped), and `GetAllPublicKeysFromFile` fails
with the no-public-keys error exactly when no marker line has a
non-empty trimmed value. -/
theorem C10_no_empty_keys (content : String) :
    (∀ s ∈ collectPublicKeys content, s ≠ "")
  ∧ (GetAllPublicKeysFromContent content = none ↔
      ∀ line ∈ splitOnChar '\n' content.toList,
        startsWithChars pkTag line = true → trimChars (line.drop pkTag.length) = []) := by
  have hiff : collectPublicKeys content = [] ↔
      ∀ line ∈ splitOnChar '\n' content.toList,
        startsWithChars pkTag line = true → trimChars (line.drop pkTag.length) = [] := by
    simp only [collectPublicKeys, List.filterMap_eq_nil_iff]
    constructor
    · intro h line hline hstart
      have hl := h line hline
      rw [if_pos hstart] at hl
      by_cases h2 : trimChars (line.drop pkTag.length) = []
      · exact h2
      · simp [h2] at hl
    · intro h line hline
      by_cases hstart : startsWithChars pkTag line
      · rw [if_pos hstart]
        simp [h line hline hstart]
      · rw [if_neg hstart]
  constructor
  · intro s hs
    simp only [collectPublicKeys, List.mem_filterMap] at hs
    obtain ⟨line, hline, heq⟩ := hs
    by_cases h1 : startsWithChars pkTag line
    · rw [if_pos h1] at heq
      by_cases h2 : trimChars (line.drop pkTag.length) = []
      · simp [h2] at heq
      · simp only [h2, ne_eq, not_false_eq_true, if_true, Option.some.injEq] at heq
        rw [← heq]
        exact mk_ne_empty _ h2
    · rw [if_neg h1] at heq
      exact absurd heq (by simp)
  · simp only [GetAllPublicKeysFromContent]
    by_cases hks : collectPublicKeys content = []
    · rw [if_pos hks]
      exact iff_of_true rfl (hiff.mp hks)
    · rw [if_neg hks]
      exact iff_of_false (by simp) (fun hall => hks (hiff.mpr hall))

/-- C10 witness: a file whose only marker line trims to empty yields the
no-public-keys error. -/
theorem C10_witness : GetAllPublicKeysFromContent "# public key:   " = none :=
  (C10_no_empty_keys "# public key:   ").2.mpr (by decide)

/-- C1 counterexample: with no 1Password items, no key files,
`alwaysUseOnePassword` set and a failing fallback `EnsureAgeKey`, zero
sources contributed, yet the assembly returns the wrapped
"failed to get any keys" error, not the NoValidKeys error — refuting the
claimed "NoValidKeys iff zero sources contributed" equivalence. -/
theorem C1_counterexample :
    assembleCombinedKeys ⟨false, none, [], true, false, none⟩
      = AggResult.error AggError.getAnyKeysFailed
  ∧ AggError.getAnyKeysFailed ≠ AggError.noValidKeys
  ∧ contributedAny ⟨false, none, [], true, false, none⟩ = false := by decide

/-- C1 (amended): failed 1Password or key-file sources are skipped; the
assembly aborts with the wrapped "failed to get any keys" error exactly
when the first two phases contributed nothing, `alwaysUseOnePassword` is
set, and the fallback `EnsureAgeKey` fails; it returns NoValidKeys
exactly when no source contributed and that abort case does not apply;
and it fails (with either error) exactly when zero sources contributed. -/
theorem C1_failure_characterization (env : AggEnv) :
    (assembleCombinedKeys env = AggResult.error AggError.getAnyKeysFailed
       ↔ (phase12Contributed env = false ∧ env.alwaysUseOnePassword = true
           ∧ env.ensureOk = false))
  ∧ (assembleCombinedKeys env = AggResult.error AggError.noValidKeys
       ↔ (contributedAny env = false
           ∧ ¬(phase12Contributed env = false ∧ env.alwaysUseOnePassword = true
               ∧ env.ensureOk = false)))
  ∧ ((∃ e, assembleCombinedKeys env = AggResult.error e) ↔ contributedAny env = false) := by
  obtain ⟨present, opC, kfs, awp, eok, dflt⟩ := env
  cases present <;> cases opC <;> cases awp <;> cases eok <;> cases dflt <;>
    cases hA : kfs.any (fun kf => kf.isSome) <;>
      simp [assembleCombinedKeys, phase12Contributed, contributedAny, addSource,
        foldl_addSource_snd, hA]

/-- C8 counterexample: with one 1Password item whose fetch fails (and the
CLI available), `EnsureAgeKey` succeeds and returns an empty temporary
bundle — no source yielded usable key material, no key material was
contributed, and yet the call does not fail with KeyUnavailable. -/
theorem C8_counterexample :
    EnsureAgeKey ⟨true, [none], none, false⟩ "" true true
      = some (LocatedKey.tempBundle "")
  ∧ (∀ f ∈ ([none] : List (Option String)), f = none) := by decide

/-- C8 (amended): `EnsureAgeKey` fails with KeyUnavailable exactly when
the 1Password attempt cannot succeed (not allowed, or multi-item setup
unavailable, or default-item fetch failed — note a multi-item retrieval
counts as succeeding whenever the CLI/setup is available, even if every
item fetch failed) and the explicit key file is absent; and any returned
multi-item bundle's content is exactly the newline-separated
concatenation of the successful item fetches (possibly empty). -/
theorem C8_locator_characterization (env : LocatorEnv) (keyFile : String)
    (useOP alwaysOP : Bool) :
    (EnsureAgeKey env keyFile useOP alwaysOP = none ↔
      ((useOP = true → opSourceOk env = false) ∧ (keyFile ≠ "" → env.fileExists = false)))
  ∧ (∀ b : String, EnsureAgeKey env keyFile useOP alwaysOP = some (LocatedKey.tempBundle b) →
      b = opFetchFold env.opItemFetches) := by
  obtain ⟨setup, items, dflt, fe⟩ := env
  by_cases hl : items.length > 0 <;> by_cases hk : keyFile = "" <;>
    cases setup <;> cases dflt <;> cases fe <;> cases useOP <;> cases alwaysOP <;>
      simp [EnsureAgeKey, GetKeysFromOnePassword, opSourceOk, hl, hk]

/-- C8 witness: a concrete KeyUnavailable failure, and a concrete
multi-item bundle whose content is the fold of its fetches. -/
theorem C8_witness :
    EnsureAgeKey ⟨false, [], none, false⟩ "" false false = none
  ∧ ("K1\n" : String) = opFetchFold [some "K1"] :=
  ⟨(C8_locator_characterization ⟨false, [], none, false⟩ "" false false).1.mpr (by decide),
   (C8_locator_characterization ⟨true, [some "K1"], none, false⟩ "" true true).2
     "K1\n" (by decide)⟩

end SimpleSops
